import Mathlib

/-!
A shallow embedding of the concept-tagging and ranking core of the
Spreadsheet-Semantic-Search repository (src/src/business_concepts.py,
src/src/semantic_search.py, src/src/models.py), together with theorems
settling the frozen claims about it.

Modelling conventions:
* Python strings are Lean `String`s; all data handled by the core is ASCII,
  where the character-list helpers below (`lowerStr`, `trimStr`, `splitWs`,
  `containsStr`, ...) coincide with `str.lower()`, `str.strip()`,
  `str.split()` and the `in` operator.  (The helpers avoid the library
  `String` primitives only because those do not reduce in the kernel.)
* Python floats are modelled as exact rationals (`ℚ`); the numeric literals
  0.4, 0.2, 0.1, 0.7, 0.8, 0.3 of the source appear as the corresponding
  fractions, written with `mkRat` so that they evaluate.
* Numeric cell values are modelled as integers (`Int`); none of the claims
  depends on non-integral numerics.
* The external Embedding Provider is out of scope per the spec, so the cosine
  similarity of a cell against the (expanded) query is an oracle parameter
  `semScore : Cell → ℚ` of the search function.  Query expansion
  (`_process_query`) only changes the text that is embedded, hence it is
  absorbed by that oracle.
* Python `list(set(...))` deduplicates with an unspecified iteration order;
  it is modelled by `dedupStr` (keep first occurrences).  No theorem
  below depends on the order of a deduplicated tag list.
-/

/-! ### String helpers (Python `in`, `split()`, `re` word boundaries) -/

/-- Test whether `pat` is an initial segment of `s` (character lists). -/
def leadMatch : List Char → List Char → Bool
  | [], _ => true
  | _ :: _, [] => false
  | a :: as, b :: bs => a == b && leadMatch as bs

/-- Test whether `pat` occurs contiguously somewhere in `s`.
This is Python `pat in s` on strings. -/
def subMatch (pat : List Char) : List Char → Bool
  | [] => leadMatch pat []
  | c :: t => leadMatch pat (c :: t) || subMatch pat t

/-- Python substring test `pat in hay`. -/
def containsStr (hay pat : String) : Bool :=
  subMatch pat.data hay.data

/-- Whitespace recognized by Python `str.split()` / `str.strip()` (the
characters that occur in the data handled by the core). -/
def wsChar (c : Char) : Bool :=
  c == ' ' || c == '\t' || c == '\n' || c == '\r'

/-- Python `str.lower()`.  All data handled by the core is ASCII, where
`Char.toLower` agrees with Python. -/
def lowerStr (s : String) : String :=
  ⟨s.data.map Char.toLower⟩

/-- Python `str.strip()`: remove leading and trailing whitespace. -/
def trimStr (s : String) : String :=
  ⟨((s.data.dropWhile (fun c => wsChar c)).reverse.dropWhile (fun c => wsChar c)).reverse⟩

/-- Accumulator-based worker for `splitWs`; `cur` holds the characters of the
word currently being read, in reverse order. -/
def splitWsAux : List Char → List Char → List String
  | cur, [] => if cur.isEmpty then [] else [⟨cur.reverse⟩]
  | cur, c :: t =>
    if wsChar c then
      if cur.isEmpty then splitWsAux [] t else ⟨cur.reverse⟩ :: splitWsAux [] t
    else splitWsAux (c :: cur) t

/-- Python `str.split()` with no argument: split on whitespace runs,
discarding empty pieces. -/
def splitWs (s : String) : List String :=
  splitWsAux [] s.data

/-- Python `" ".join(parts)`. -/
def joinSp : List String → String
  | [] => ""
  | [s] => s
  | s :: t => s ++ " " ++ joinSp t

/-- Python `s.startswith('=')`, specialised to a single character. -/
def headIs (s : String) (c : Char) : Bool :=
  match s.data with
  | [] => false
  | a :: _ => a == c

/-- Python `list(set(xs))` keeps one copy of every element; the iteration
order of a Python set is unspecified, so first-occurrence order is chosen
here.  `seen` collects the elements already emitted. -/
def dedupAux (seen : List String) : List String → List String
  | [] => []
  | a :: t => if seen.contains a then dedupAux seen t else a :: dedupAux (a :: seen) t

/-- Deduplication keeping first occurrences (the model of `list(set(...))`). -/
def dedupStr (l : List String) : List String :=
  dedupAux [] l

/-- A word character in the sense of the regex class `\w`. -/
def wordChar (c : Char) : Bool :=
  c.isAlphanum || c == '_'

/-- A regex word boundary holds before the scanned position given the
preceding character (`none` at the very start of the text). -/
def boundaryOk : Option Char → Bool
  | none => true
  | some c => !wordChar c

/-- Match of `w` at the front of `s`, followed by a word boundary (end of
text or a non-word character). -/
def wordAt : List Char → List Char → Bool
  | [], [] => true
  | [], c :: _ => !wordChar c
  | _ :: _, [] => false
  | a :: as, b :: bs => a == b && wordAt as bs

/-- Scan `s` for a whole-word occurrence of `w`, carrying the previously
scanned character for the left boundary check. -/
def wordScan (w : List Char) : Option Char → List Char → Bool
  | prev, [] => boundaryOk prev && wordAt w []
  | prev, c :: t => (boundaryOk prev && wordAt w (c :: t)) || wordScan w (some c) t

/-- Regex search for `\b w \b` in `text` (whole-word occurrence), as used by
the pattern rules of `_identify_patterns`. -/
def wholeWord (w text : String) : Bool :=
  wordScan w.data none text.data

/-! ### The static concept catalog (`BusinessConceptMapper._initialize_business_concepts`) -/

structure BusinessConcept where
  name : String
  synonyms : List String
  keywords : List String
  description : String
  category : String
deriving DecidableEq

def profitabilityConcepts : List BusinessConcept :=
  [ { name := "gross profit margin"
    , synonyms := ["gross margin", "gross profit %", "gross profitability"]
    , keywords := ["gross", "profit", "margin", "revenue", "cogs"]
    , description := "Measures profitability after cost of goods sold"
    , category := "profitability" }
  , { name := "net profit margin"
    , synonyms := ["net margin", "profit margin", "net profitability"]
    , keywords := ["net", "profit", "margin", "bottom line"]
    , description := "Overall profitability after all expenses"
    , category := "profitability" }
  , { name := "operating margin"
    , synonyms := ["operating profit margin", "EBIT margin"]
    , keywords := ["operating", "margin", "ebit"]
    , description := "Profitability from core operations"
    , category := "profitability" }
  , { name := "EBITDA"
    , synonyms := ["earnings before interest tax depreciation amortization"]
    , keywords := ["ebitda", "earnings", "cash flow proxy"]
    , description := "Operating performance measure"
    , category := "profitability" }
  , { name := "return on investment"
    , synonyms := ["ROI", "return on assets", "ROA"]
    , keywords := ["roi", "return", "investment", "efficiency"]
    , description := "Efficiency of investment returns"
    , category := "profitability" } ]

def revenueConcepts : List BusinessConcept :=
  [ { name := "total revenue"
    , synonyms := ["sales", "income", "turnover", "gross sales"]
    , keywords := ["revenue", "sales", "income", "total"]
    , description := "Total income from business operations"
    , category := "revenue" }
  , { name := "revenue growth"
    , synonyms := ["sales growth", "income growth", "top line growth"]
    , keywords := ["growth", "increase", "yoy", "qoq"]
    , description := "Rate of revenue increase over time"
    , category := "revenue" }
  , { name := "recurring revenue"
    , synonyms := ["subscription revenue", "monthly recurring revenue", "MRR"]
    , keywords := ["recurring", "subscription", "monthly", "mrr"]
    , description := "Predictable revenue streams"
    , category := "revenue" } ]

def costsConcepts : List BusinessConcept :=
  [ { name := "cost of goods sold"
    , synonyms := ["COGS", "direct costs", "variable costs"]
    , keywords := ["cogs", "cost", "goods", "sold", "direct"]
    , description := "Direct costs of producing goods/services"
    , category := "costs" }
  , { name := "operating expenses"
    , synonyms := ["OPEX", "operational costs", "overhead"]
    , keywords := ["operating", "expenses", "opex", "overhead"]
    , description := "Costs of running business operations"
    , category := "costs" }
  , { name := "marketing spend"
    , synonyms := ["marketing costs", "advertising expenses", "marketing investment"]
    , keywords := ["marketing", "advertising", "promotion", "spend"]
    , description := "Investment in marketing and advertising"
    , category := "costs" }
  , { name := "total expenses"
    , synonyms := ["total costs", "all expenses", "combined costs"]
    , keywords := ["total", "expenses", "costs", "all"]
    , description := "Sum of all business expenses"
    , category := "costs" } ]

def efficiencyConcepts : List BusinessConcept :=
  [ { name := "asset turnover"
    , synonyms := ["asset efficiency", "asset utilization"]
    , keywords := ["asset", "turnover", "efficiency", "utilization"]
    , description := "How efficiently assets generate revenue"
    , category := "efficiency" }
  , { name := "inventory turnover"
    , synonyms := ["inventory efficiency", "stock turnover"]
    , keywords := ["inventory", "turnover", "stock", "efficiency"]
    , description := "How quickly inventory is sold"
    , category := "efficiency" }
  , { name := "working capital ratio"
    , synonyms := ["current ratio", "liquidity ratio"]
    , keywords := ["working", "capital", "ratio", "liquidity"]
    , description := "Short-term financial health measure"
    , category := "efficiency" }
  , { name := "productivity ratio"
    , synonyms := ["productivity measure", "efficiency ratio"]
    , keywords := ["productivity", "efficiency", "output", "input"]
    , description := "Output relative to input measure"
    , category := "efficiency" } ]

def growthConcepts : List BusinessConcept :=
  [ { name := "year over year growth"
    , synonyms := ["YoY growth", "annual growth", "yearly growth"]
    , keywords := ["yoy", "year", "annual", "growth"]
    , description := "Growth compared to same period previous year"
    , category := "growth" }
  , { name := "quarter over quarter growth"
    , synonyms := ["QoQ growth", "quarterly growth"]
    , keywords := ["qoq", "quarter", "quarterly", "growth"]
    , description := "Growth compared to previous quarter"
    , category := "growth" }
  , { name := "compound annual growth rate"
    , synonyms := ["CAGR", "compound growth"]
    , keywords := ["cagr", "compound", "annual", "growth"]
    , description := "Average annual growth rate over multiple years"
    , category := "growth" }
  , { name := "month over month growth"
    , synonyms := ["MoM growth", "monthly growth"]
    , keywords := ["mom", "month", "monthly", "growth"]
    , description := "Growth compared to previous month"
    , category := "growth" } ]

def financialAnalysisConcepts : List BusinessConcept :=
  [ { name := "budget vs actual"
    , synonyms := ["budget variance", "actual vs budget", "variance analysis"]
    , keywords := ["budget", "actual", "variance", "vs", "against"]
    , description := "Comparison of planned vs actual performance"
    , category := "financial_analysis" }
  , { name := "forecast analysis"
    , synonyms := ["projection", "prediction", "forecast"]
    , keywords := ["forecast", "projection", "prediction", "future"]
    , description := "Future performance predictions"
    , category := "financial_analysis" }
  , { name := "trend analysis"
    , synonyms := ["time series", "historical analysis"]
    , keywords := ["trend", "time", "series", "historical"]
    , description := "Analysis of patterns over time"
    , category := "financial_analysis" } ]

def formulasConcepts : List BusinessConcept :=
  [ { name := "percentage calculation"
    , synonyms := ["percent formula", "ratio as percentage"]
    , keywords := ["percentage", "percent", "%", "ratio"]
    , description := "Calculations expressed as percentages"
    , category := "formulas" }
  , { name := "average calculation"
    , synonyms := ["mean", "avg", "average formula"]
    , keywords := ["average", "mean", "avg"]
    , description := "Average or mean calculations"
    , category := "formulas" }
  , { name := "sum calculation"
    , synonyms := ["total", "sum formula", "addition"]
    , keywords := ["sum", "total", "add", "addition"]
    , description := "Sum or total calculations"
    , category := "formulas" }
  , { name := "conditional calculation"
    , synonyms := ["if formula", "conditional logic"]
    , keywords := ["if", "conditional", "logic", "condition"]
    , description := "Calculations with conditional logic"
    , category := "formulas" }
  , { name := "lookup formula"
    , synonyms := ["vlookup", "index match", "lookup"]
    , keywords := ["vlookup", "lookup", "index", "match"]
    , description := "Data lookup and retrieval formulas"
    , category := "formulas" } ]

/-- All catalog concepts, flattened in the iteration order of the category
dictionary (profitability, revenue, costs, efficiency, growth,
financial_analysis, formulas). -/
def allConcepts : List BusinessConcept :=
  profitabilityConcepts ++ revenueConcepts ++ costsConcepts ++ efficiencyConcepts ++
    growthConcepts ++ financialAnalysisConcepts ++ formulasConcepts

/-! ### Concept Tagger (`BusinessConceptMapper.identify_concepts` and helpers) -/

/-- Model of `BusinessConceptMapper._matches_concept`: some term among name, synonyms
and keywords has every one of its (lower-cased) words occur as a substring of
`text`.  The Python membership test `word in text` is substring containment. -/
def matchesConcept (text : String) (c : BusinessConcept) : Bool :=
  ([c.name] ++ c.synonyms ++ c.keywords).any (fun term =>
    (splitWs (lowerStr term)).all (fun w => containsStr text w))

/-- Model of `BusinessConceptMapper._identify_patterns`.  The first rule of the source
is `re.search(r'\b\w+\s*/\s*\w+\b', text) or '/' in text`; every match of the
regex contains a `/`, so the disjunction is equivalent to the plain substring
test `'/' in text`, which is how it is modelled.  Likewise the fourth rule
`\bmargin\b|\bprofit\s+margin\b` is equivalent to its first alternative
`\bmargin\b`, because any match of the second contains a whole-word `margin`. -/
def identifyPatterns (text : String) : List String :=
  (if containsStr text "/" then ["ratio calculation"] else []) ++
  (if containsStr text "%" || wholeWord "percent" text || wholeWord "ratio" text ||
      wholeWord "rate" text then ["percentage calculation"] else []) ++
  (if wholeWord "yoy" text || wholeWord "qoq" text || wholeWord "mom" text ||
      wholeWord "growth" text || wholeWord "increase" text then ["growth metric"] else []) ++
  (if wholeWord "margin" text then ["profitability metric"] else [])

/-- Model of `BusinessConceptMapper._identify_formula_concepts`. -/
def identifyFormulaConcepts (text : String) : List String :=
  if !headIs text '=' then [] else
  let tl := lowerStr text
  (if containsStr tl "sum(" then ["sum calculation", "aggregation formula"] else []) ++
  (if containsStr tl "average(" || containsStr tl "avg(" then ["average calculation"] else []) ++
  (if containsStr tl "if(" || containsStr tl "sumif(" || containsStr tl "countif(" ||
      containsStr tl "averageif(" then ["conditional calculation"] else []) ++
  (if containsStr tl "vlookup(" || containsStr tl "hlookup(" || containsStr tl "index(" ||
      containsStr tl "match(" || containsStr tl "xlookup(" then ["lookup formula"] else []) ++
  (if containsStr text "/" && !(containsStr tl "sum(" || containsStr tl "average(") then
      ["ratio calculation", "percentage calculation"] else [])

/-- Model of `BusinessConceptMapper.identify_concepts`: direct catalog matching on the
lower-cased text, then pattern rules, then formula rules, deduplicated. -/
def identifyConcepts (text : String) : List String :=
  let tl := lowerStr text
  let direct := (allConcepts.filter (fun c => matchesConcept tl c)).map (fun c => c.name)
  dedupStr (direct ++ identifyPatterns tl ++ identifyFormulaConcepts text)

/-! ### Grid scalars and the Cell Indexer (`SemanticSearchEngine._process_sheet` etc.) -/

/-- A scalar value in a grid cell: `blank` models Python `None`; numeric
values (modelled as integers) and strings are the other loadable scalars. -/
inductive Scalar where
  | blank : Scalar
  | num : Int → Scalar
  | text : String → Scalar
deriving DecidableEq

/-- Python `str(value)` for the scalars above. -/
def scalarStr : Scalar → String
  | Scalar.blank => "None"
  | Scalar.num n => toString n
  | Scalar.text s => s

/-- Python truthiness `bool(value)` for the scalars above. -/
def scalarTruthy : Scalar → Bool
  | Scalar.blank => false
  | Scalar.num n => n ≠ 0
  | Scalar.text s => s ≠ ""

/-- The skip test of `_process_sheet`:
`value is None or (isinstance(value, str) and not value.strip())`. -/
def isBlank : Scalar → Bool
  | Scalar.blank => true
  | Scalar.num _ => false
  | Scalar.text s => trimStr s == ""

/-- The header lookup of `_process_sheet`: column `col` has a header iff the
row-0 entry at `col` is a string with non-blank strip; the header is the
stripped text, and the empty string stands for Python's missing entry. -/
def headerAt (row0 : List Scalar) (col : Nat) : String :=
  match row0.get? col with
  | some (Scalar.text s) => if trimStr s ≠ "" then trimStr s else ""
  | _ => ""

/-- The formula test of `_process_sheet`: the value itself when it is a
string starting with `=`, otherwise the empty string. -/
def formulaOf : Scalar → String
  | Scalar.text s => if headIs s '=' then s else ""
  | _ => ""

/-- An indexed cell (dataclass `SpreadsheetCell`; the embedding field is an
oracle of the external provider and is not carried here). -/
structure Cell where
  sheet : String
  row : Nat
  col : Nat
  value : Scalar
  formula : String
  headerContext : String
  concepts : List String
deriving DecidableEq

/-- The context string built by `_identify_concepts`: header (when present),
the value when it is a string, the formula (when non-empty) and the sheet
name, space-joined and lower-cased.  Numeric values are **not** included
(the source appends the value only under `isinstance(value, str)`). -/
def cellContextText (value : Scalar) (formula header sheet : String) : String :=
  let parts :=
    (if header ≠ "" then [header] else []) ++
    (match value with | Scalar.text s => [s] | _ => []) ++
    (if formula ≠ "" then [formula] else []) ++ [sheet]
  lowerStr (joinSp parts)

/-- Model of `_analyze_formula_concepts`. -/
def analyzeFormulaConcepts (formula header : String) : List String :=
  let fl := lowerStr formula
  let hl := lowerStr header
  (if (containsStr fl "/" || containsStr fl "divide") &&
      (containsStr hl "margin" || containsStr hl "ratio" || containsStr hl "rate" ||
       containsStr hl "percentage" || containsStr hl "%") then
    ["ratio calculation"] ++ (if containsStr hl "margin" then ["profitability metric"] else [])
  else []) ++
  (if containsStr fl "sum(" then
    ["aggregation formula"] ++
      (if containsStr hl "revenue" || containsStr hl "sales" || containsStr hl "income" then
        ["revenue calculation"]
      else if containsStr hl "cost" || containsStr hl "expense" then
        ["cost calculation"]
      else [])
  else []) ++
  (if containsStr fl "average(" || containsStr fl "avg(" then ["average calculation"] else []) ++
  (if containsStr fl "if(" || containsStr fl "sumif(" || containsStr fl "countif(" then
    ["conditional calculation"] else []) ++
  (if containsStr fl "vlookup(" || containsStr fl "index(" || containsStr fl "match(" then
    ["lookup formula"] else [])

/-- Model of `_analyze_value_concepts` (the caller passes the already lower-cased
context string as `ctx`). -/
def analyzeValueConcepts (value : Scalar) (header ctx : String) : List String :=
  let hl := lowerStr header
  let cl := lowerStr ctx
  (match value with
   | Scalar.text s =>
     if containsStr s "%" then
       ["percentage value"] ++
         (if containsStr hl "margin" || containsStr hl "growth" || containsStr hl "rate" then
           ["percentage calculation"] else [])
     else []
   | _ => []) ++
  (match value with
   | Scalar.num n =>
     if n > 1000 &&
        (containsStr cl "revenue" || containsStr cl "sales" || containsStr cl "income" ||
         containsStr cl "profit" || containsStr cl "cost" || containsStr cl "expense") then
       ["monetary value"]
     else []
   | _ => [])

/-- Model of `SemanticSearchEngine._identify_concepts`: Tagger on the context string,
plus formula-based concepts (when a formula is present) and value-based
concepts (when the value is numeric), deduplicated. -/
def identifyCellConcepts (value : Scalar) (formula header sheet : String) : List String :=
  let ctx := cellContextText value formula header sheet
  let base := identifyConcepts ctx
  let fromFormula := if formula ≠ "" then analyzeFormulaConcepts formula header else []
  let fromValue := match value with
    | Scalar.num _ => analyzeValueConcepts value header ctx
    | _ => []
  dedupStr (base ++ fromFormula ++ fromValue)

/-- Construction of one `SpreadsheetCell` for a non-blank grid position. -/
def buildCell (sheet : String) (row0 : List Scalar) (ri ci : Nat) (v : Scalar) : Cell :=
  let h := headerAt row0 ci
  let f := formulaOf v
  { sheet := sheet, row := ri, col := ci, value := v, formula := f, headerContext := h,
    concepts := identifyCellConcepts v f h sheet }

/-- Model of `_process_sheet`: skip empty sheets; emit one cell per non-blank
position, row-major. -/
def processSheet (sheet : String) (data : List (List Scalar)) : List Cell :=
  match data with
  | [] => []
  | row0 :: _ =>
    (data.enum.map (fun rowPair =>
      rowPair.2.enum.filterMap (fun colPair =>
        if isBlank colPair.2 then none
        else some (buildCell sheet row0 rowPair.1 colPair.1 colPair.2)))).flatten

/-- Model of `load_spreadsheet_data`: process every sheet in declaration order. -/
def indexCells (sheets : List (String × List (List Scalar))) : List Cell :=
  (sheets.map (fun p => processSheet p.1 p.2)).flatten

/-! ### Cell-address encoding (`_get_excel_cell_reference`) -/

/-- Worker for the column-letter loop of `_get_excel_cell_reference`:
one iteration maps `col_num = n+1 > 0` to the letter `(n % 26) + 'A'`
appended on the right of the letters produced for `n / 26`.  The `fuel`
argument only makes the recursion structural; `fuel ≥ n` keeps it exact. -/
def colLettersAux : Nat → Nat → List Char
  | _, 0 => []
  | 0, _ + 1 => []
  | fuel + 1, n + 1 => colLettersAux fuel (n / 26) ++ [Char.ofNat (n % 26 + 65)]

/-- The column letters produced by `_get_excel_cell_reference` for the
1-based column number `n` (the source sets `col_num = col + 1`). -/
def colLetters (n : Nat) : String :=
  ⟨colLettersAux n n⟩

/-- Model of `_get_excel_cell_reference(row, col)`: column letters of `col + 1`
followed by the decimal digits of `row + 1`. -/
def cellRef (row col : Nat) : String :=
  colLetters (col + 1) ++ toString (row + 1)

/-- Decoder written from the claim: read the letters as bijective base-26
digits with A = 1 through Z = 26. -/
def decodeCol (s : String) : Nat :=
  s.data.foldl (fun a c => a * 26 + (c.toNat - 64)) 0

/-! ### Scoring (`search`, `_calculate_concept_relevance`,
`_calculate_contextual_relevance`)

The standard `Rat` arithmetic of the library is sealed (`@[irreducible]`),
which prevents `decide` from evaluating concrete scores.  The scoring
functions therefore use the kernel-computable equivalents `qAdd`, `qMul`,
`qMax`, `qMin` and `mkRat` literals; the lemmas `qAdd_eq`, `qMul_eq`,
`qMax_eq`, `qMin_eq` below identify them with `+`, `*`, `max`, `min` on `ℚ`,
and the claim theorems are stated through those standard operations. -/

/-- Kernel-computable rational addition; equals `a + b` by `qAdd_eq`. -/
def qAdd (a b : ℚ) : ℚ :=
  mkRat (a.num * b.den + b.num * a.den) (a.den * b.den)

/-- Kernel-computable rational multiplication; equals `a * b` by `qMul_eq`. -/
def qMul (a b : ℚ) : ℚ :=
  mkRat (a.num * b.num) (a.den * b.den)

/-- Kernel-computable maximum; equals `max a b` by `qMax_eq`. -/
def qMax (a b : ℚ) : ℚ :=
  if a ≤ b then b else a

/-- Kernel-computable minimum; equals `min a b` by `qMin_eq`. -/
def qMin (a b : ℚ) : ℚ :=
  if a ≤ b then a else b

theorem qAdd_eq (a b : ℚ) : qAdd a b = a + b := by
  have ha : ((a.den : ℚ)) ≠ 0 := Nat.cast_ne_zero.mpr a.den_nz
  have hb : ((b.den : ℚ)) ≠ 0 := Nat.cast_ne_zero.mpr b.den_nz
  rw [qAdd, Rat.mkRat_eq_div]
  conv_rhs => rw [← Rat.num_div_den a, ← Rat.num_div_den b]
  rw [div_add_div _ _ ha hb]
  push_cast
  ring_nf

theorem qMul_eq (a b : ℚ) : qMul a b = a * b := by
  rw [qMul, Rat.mkRat_eq_div]
  push_cast
  rw [← div_mul_div_comm, Rat.num_div_den, Rat.num_div_den]

theorem qMax_eq (a b : ℚ) : qMax a b = max a b := by
  unfold qMax
  split_ifs with h
  · exact (max_eq_right h).symm
  · exact (max_eq_left (le_of_not_le h)).symm

theorem qMin_eq (a b : ℚ) : qMin a b = min a b := by
  unfold qMin
  split_ifs with h
  · exact (min_eq_left h).symm
  · exact (min_eq_right (le_of_not_le h)).symm

/-- Python `max(scores)` guarded by `if scores else 0.0`. -/
def maxQ : List ℚ → ℚ
  | [] => 0
  | a :: as => as.foldl qMax a

/-- The per-tag loop of `_calculate_concept_relevance`: 1.0 when the
lower-cased tag occurs in the lower-cased query, else 0.7 when any single
word of the tag occurs (as a substring, Python `word in query_lower`) in the
query; tags matching neither rule contribute nothing. -/
def conceptDirectScores (ql : String) (cellConcepts : List String) : List ℚ :=
  cellConcepts.foldr (fun concept acc =>
    let cl := lowerStr concept
    if containsStr ql cl then 1 :: acc
    else if (splitWs cl).any (fun w => containsStr ql w) then mkRat 7 10 :: acc
    else acc) []

/-- Model of `_calculate_concept_relevance(query, cell_concepts)`: the per-tag scores
above, then 0.8 appended when the tags the Tagger derives from the query
meet the cell tag set; result is the maximum collected, 0 when nothing was
collected or the cell has no tags. -/
def conceptRelevance (query : String) (cellConcepts : List String) : ℚ :=
  if cellConcepts.isEmpty then 0 else
  let ql := lowerStr query
  let queryConcepts := identifyConcepts ql
  let scores :=
    if cellConcepts.any (fun t => queryConcepts.contains t) then
      conceptDirectScores ql cellConcepts ++ [mkRat 4 5]
    else conceptDirectScores ql cellConcepts
  maxQ scores

/-- Model of `_calculate_contextual_relevance(query, cell)`: weighted distinct-word
overlap of the query with the header (0.3) and the sheet name (0.2), capped
at 1. -/
def contextualRelevance (query : String) (c : Cell) : ℚ :=
  let ql := lowerStr query
  let queryWords := splitWs ql
  let fromHeader : ℚ :=
    if c.headerContext ≠ "" then
      let headerWords := splitWs (lowerStr c.headerContext)
      let common := (dedupStr queryWords).filter (fun w => headerWords.contains w)
      if !common.isEmpty then qMul (mkRat 3 10) (mkRat common.length queryWords.length) else 0
    else 0
  let fromSheet : ℚ :=
    let sheetWords := splitWs (lowerStr c.sheet)
    let common := (dedupStr queryWords).filter (fun w => sheetWords.contains w)
    if !common.isEmpty then qMul (mkRat 2 10) (mkRat common.length queryWords.length) else 0
  qMin (qAdd fromHeader fromSheet) 1

/-- One scored cell of the `search` loop; the spec calls this a
`ScoredResult`.  `semanticScore` is the cosine similarity delivered by the
embedding oracle. -/
structure ScoredCell where
  cell : Cell
  semanticScore : ℚ
  conceptScore : ℚ
  contextScore : ℚ
  finalScore : ℚ
deriving DecidableEq

/-- The per-cell scoring of `search`:
`final_score = similarity*0.4 + concept_relevance*0.4 + contextual_relevance*0.2`. -/
def scoreCell (semScore : Cell → ℚ) (query : String) (c : Cell) : ScoredCell :=
  let similarity := semScore c
  let conceptRel := conceptRelevance query c.concepts
  let contextRel := contextualRelevance query c
  { cell := c, semanticScore := similarity, conceptScore := conceptRel,
    contextScore := contextRel,
    finalScore := qAdd (qAdd (qMul similarity (mkRat 4 10)) (qMul conceptRel (mkRat 4 10)))
      (qMul contextRel (mkRat 2 10)) }

/-- The relevance floor `final_score > 0.1` of `search`. -/
def relFloor (sc : ScoredCell) : Bool :=
  decide (mkRat 1 10 < sc.finalScore)

/-- The sort key relation: descending final score.  `results.sort(key=...,
reverse=True)` is a stable descending sort, which `List.insertionSort` with
this relation implements (an element is inserted before the first element
whose key is not larger, so earlier elements with equal keys stay first). -/
def scoreGE (a b : ScoredCell) : Prop :=
  b.finalScore ≤ a.finalScore

instance : DecidableRel scoreGE :=
  fun a b => inferInstanceAs (Decidable (b.finalScore ≤ a.finalScore))

instance : IsTotal ScoredCell scoreGE :=
  ⟨fun a b => le_total b.finalScore a.finalScore⟩

instance : IsTrans ScoredCell scoreGE :=
  ⟨fun _ _ _ h1 h2 => le_trans h2 h1⟩

/-- Python slice `l[:n]` for an `int` bound `n`: the first `n` elements when
`n ≥ 0`, all but the last `-n` elements when `n < 0`. -/
def pySlice (n : Int) (l : List α) : List α :=
  if 0 ≤ n then l.take n.toNat else l.take ((l.length : Int) + n).toNat

/-- The scored pipeline of `search(query, max_results)`: score every indexed
cell, keep those above the relevance floor, sort stably by descending final
score, and apply the Python slice `[:max_results]`.  (The source constructs
the presentation record before sorting; the sort key `relevance_score`
equals `finalScore`, so formatting commutes with sorting and is applied
afterwards in `search` below.) -/
def searchScored (semScore : Cell → ℚ) (query : String) (cells : List Cell)
    (maxResults : Int) : List ScoredCell :=
  pySlice maxResults
    (List.insertionSort scoreGE ((cells.map (scoreCell semScore query)).filter relFloor))

/-! ### Result Formatter (`SearchResult` construction inside `search`) -/

/-- Python `str.title()` (ASCII): the first character of each maximal run of
letters is upper-cased, the rest lower-cased. -/
def pyTitleAux : Bool → List Char → List Char
  | _, [] => []
  | prevCased, c :: cs =>
    let cased := c.isAlpha
    let c2 := if cased && !prevCased then c.toUpper else if cased then c.toLower else c
    c2 :: pyTitleAux cased cs

def pyTitle (s : String) : String :=
  ⟨pyTitleAux false s.data⟩

/-- Python `s.replace('_', ' ')` (single-character replacement). -/
def underscoreToSpace (s : String) : String :=
  ⟨s.data.map (fun c => if c == '_' then ' ' else c)⟩

/-- The presentation record (`models.SearchResult`). -/
structure SearchResult where
  conceptName : String
  location : String
  formula : Option String
  value : Option String
  businessContext : String
  explanation : String
  relevanceScore : ℚ
deriving DecidableEq

/-- Model of `_generate_concept_name`.  The Python first tag comes from an
unspecified set iteration order; here it is the first kept occurrence. -/
def generateConceptName (c : Cell) : String :=
  if c.headerContext ≠ "" then c.headerContext
  else
    match c.concepts with
    | t :: _ => pyTitle (underscoreToSpace t)
    | [] => "Cell " ++ cellRef c.row c.col

/-- Model of `_generate_business_context`. -/
def generateBusinessContext (c : Cell) : String :=
  let fromConcepts :=
    match c.concepts with
    | t :: _ => ["This is a " ++ underscoreToSpace t]
    | [] => []
  let fromFormula := if c.formula ≠ "" then ["calculated using a formula"] else []
  joinSp (fromConcepts ++ fromFormula ++ ["located in the '" ++ c.sheet ++ "' sheet"]) ++ "."

/-- Python `", ".join(parts)`. -/
def joinComma : List String → String
  | [] => ""
  | [s] => s
  | s :: t => s ++ ", " ++ joinComma t

/-- Python `"; ".join(parts)`. -/
def joinSemi : List String → String
  | [] => ""
  | [s] => s
  | s :: t => s ++ "; " ++ joinSemi t

/-- Model of `_generate_explanation`.  Word sets that Python renders in set iteration
order are rendered in first-occurrence order here. -/
def generateExplanation (query : String) (c : Cell) : String :=
  let ql := lowerStr query
  let fromConcepts :=
    let matching := c.concepts.filter (fun t =>
      (splitWs (lowerStr t)).any (fun w => containsStr ql w))
    if !matching.isEmpty then ["Contains " ++ joinComma matching] else []
  let fromHeader :=
    if c.headerContext ≠ "" then
      let common := (dedupStr (splitWs (lowerStr c.headerContext))).filter (fun w =>
        (splitWs ql).contains w)
      if !common.isEmpty then ["Header contains: " ++ joinComma common] else []
    else []
  let fromFormula :=
    if c.formula ≠ "" then
      if containsStr ql "formula" || containsStr ql "calculation" || containsStr ql "computed" then
        ["Contains a formula"]
      else if containsStr ql "average" && containsStr (lowerStr c.formula) "average" then
        ["Contains average calculation"]
      else if (containsStr ql "sum" || containsStr ql "total") &&
          containsStr (lowerStr c.formula) "sum" then
        ["Contains sum calculation"]
      else []
    else []
  let fromSheet :=
    let common := (dedupStr (splitWs (lowerStr c.sheet))).filter (fun w =>
      (splitWs ql).contains w)
    if !common.isEmpty then ["In relevant sheet: " ++ joinComma common] else []
  let parts := fromConcepts ++ fromHeader ++ fromFormula ++ fromSheet
  joinSemi (if parts.isEmpty then ["Semantically related to your query"] else parts)

/-- Construction of the `SearchResult` record inside the `search` loop. -/
def formatResult (query : String) (sc : ScoredCell) : SearchResult :=
  let c := sc.cell
  { conceptName := generateConceptName c
  , location := "'" ++ c.sheet ++ "'!" ++ cellRef c.row c.col
  , formula := if c.formula ≠ "" then some c.formula else none
  , value := if scalarTruthy c.value then some (scalarStr c.value) else none
  , businessContext := generateBusinessContext c
  , explanation := generateExplanation query c
  , relevanceScore := sc.finalScore }

/-- Model of `search(query, max_results)` as a whole: the scored pipeline followed by
formatting.  (The source formats each passing cell before the sort; since
the sort key `relevance_score` is exactly `finalScore`, mapping the
formatter over the sorted, sliced pipeline yields the same list.) -/
def search (semScore : Cell → ℚ) (query : String) (cells : List Cell)
    (maxResults : Int) : List SearchResult :=
  (searchScored semScore query cells maxResults).map (formatResult query)

/-! ### Bridging lemmas -/

theorem leadMatch_iff (pat s : List Char) : leadMatch pat s = true ↔ ∃ t, s = pat ++ t := by
  induction pat generalizing s with
  | nil =>
    simp only [leadMatch, List.nil_append, true_iff]
    exact ⟨s, rfl⟩
  | cons a as ih =>
    cases s with
    | nil => simp [leadMatch]
    | cons b bs =>
      simp only [leadMatch, Bool.and_eq_true, beq_iff_eq, ih, List.cons_append,
        List.cons.injEq]
      constructor
      · rintro ⟨rfl, t, rfl⟩
        exact ⟨t, rfl, rfl⟩
      · rintro ⟨t, rfl, rfl⟩
        exact ⟨rfl, t, rfl⟩

theorem subMatch_iff (pat s : List Char) : subMatch pat s = true ↔ ∃ l r, s = l ++ (pat ++ r) := by
  induction s with
  | nil =>
    rw [subMatch, leadMatch_iff]
    constructor
    · rintro ⟨t, ht⟩
      exact ⟨[], t, ht⟩
    · rintro ⟨l, r, hlr⟩
      rcases List.append_eq_nil.mp hlr.symm with ⟨rfl, h2⟩
      exact ⟨r, by rw [List.nil_append] at hlr; exact hlr⟩
  | cons c t ih =>
    rw [subMatch, Bool.or_eq_true, leadMatch_iff, ih]
    constructor
    · rintro (⟨r, hr⟩ | ⟨l, r, hlr⟩)
      · exact ⟨[], r, by simpa using hr⟩
      · exact ⟨c :: l, r, by simp [hlr]⟩
    · rintro ⟨l, r, hlr⟩
      cases l with
      | nil => exact Or.inl ⟨r, by simpa using hlr⟩
      | cons x xs =>
        rw [List.cons_append, List.cons.injEq] at hlr
        exact Or.inr ⟨xs, r, hlr.2⟩

theorem containsStr_iff (hay pat : String) :
    containsStr hay pat = true ↔ ∃ l r, hay.data = l ++ (pat.data ++ r) := by
  rw [containsStr, subMatch_iff]

theorem mem_dedupAux (a : String) (seen l : List String) :
    a ∈ dedupAux seen l ↔ a ∈ l ∧ a ∉ seen := by
  induction l generalizing seen with
  | nil => simp [dedupAux]
  | cons b t ih =>
    rw [dedupAux]
    by_cases hb : (seen.contains b : Bool)
    · have hbmem : b ∈ seen := by simpa using hb
      rw [if_pos hb, ih, List.mem_cons]
      constructor
      · rintro ⟨h1, h2⟩
        exact ⟨Or.inr h1, h2⟩
      · rintro ⟨rfl | h1, h2⟩
        · exact absurd hbmem h2
        · exact ⟨h1, h2⟩
    · have hbmem : b ∉ seen := by simpa using hb
      rw [if_neg hb, List.mem_cons, ih]
      constructor
      · rintro (rfl | ⟨h1, h2⟩)
        · exact ⟨List.mem_cons_self _ _, hbmem⟩
        · simp only [List.mem_cons, not_or] at h2
          exact ⟨List.mem_cons_of_mem _ h1, h2.2⟩
      · rintro ⟨h0, h2⟩
        rcases List.mem_cons.mp h0 with rfl | h1
        · exact Or.inl rfl
        · by_cases hab : a = b
          · exact Or.inl hab
          · refine Or.inr ⟨h1, ?_⟩
            simp only [List.mem_cons, not_or]
            exact ⟨hab, h2⟩

theorem mem_dedupStr (a : String) (l : List String) : a ∈ dedupStr l ↔ a ∈ l := by
  rw [dedupStr, mem_dedupAux]
  simp

/-! ### C6 and C7: the address encoder -/

/-- C6: the cell-address encoder produces the bijective base-26 letters of
the 0-based column (via the 1-based `col + 1` fed to the digit loop)
concatenated with `row + 1`; in particular `encode(0,0) = "A1"`,
`encode(0,25) = "Z1"`, `encode(0,26) = "AA1"`, `encode(4,27) = "AB5"`, and
column 701 yields letters "ZZ", column 702 yields "AAA". -/
theorem c6_addressEncoding :
    cellRef 0 0 = "A1" ∧ cellRef 0 25 = "Z1" ∧ cellRef 0 26 = "AA1" ∧
    cellRef 4 27 = "AB5" ∧ colLetters (701 + 1) = "ZZ" ∧ colLetters (702 + 1) = "AAA" ∧
    (∀ row col : Nat, cellRef row col = colLetters (col + 1) ++ toString (row + 1)) :=
  ⟨by decide, by decide, by decide, by decide, by decide, by decide, fun _ _ => rfl⟩

theorem colLettersAux_decode (fuel : Nat) : ∀ n : Nat, n ≤ fuel →
    (colLettersAux fuel n).foldl (fun a c => a * 26 + (c.toNat - 64)) 0 = n := by
  induction fuel with
  | zero =>
    intro n hn
    interval_cases n
    rfl
  | succ f ih =>
    intro n hn
    match n with
    | 0 => rfl
    | m + 1 =>
      rw [colLettersAux, List.foldl_append]
      rw [ih (m / 26) (le_trans (Nat.div_le_self m 26) (Nat.succ_le_succ_iff.mp hn))]
      have hc : (Char.ofNat (m % 26 + 65)).toNat = m % 26 + 65 := by
        have h26 : m % 26 < 26 := Nat.mod_lt _ (by norm_num)
        have hall : ∀ k < 26, (Char.ofNat (k + 65)).toNat = k + 65 := by decide
        exact hall _ h26
      simp only [List.foldl, hc]
      omega

theorem decodeCol_colLetters (n : Nat) : decodeCol (colLetters n) = n :=
  colLettersAux_decode n n le_rfl

/-- C7: decoding the letters produced by the encoder as bijective base-26
(A = 1 .. Z = 26) and converting back to 0-based recovers the column, for
every column in [0, 1000]. -/
theorem c7_roundTrip (col : Nat) (h : col ≤ 1000) :
    decodeCol (colLetters (col + 1)) - 1 = col := by
  rw [decodeCol_colLetters]
  omega

theorem c7_roundTrip_witness :
    701 ≤ 1000 ∧ decodeCol (colLetters (701 + 1)) - 1 = 701 :=
  ⟨by norm_num, c7_roundTrip 701 (by norm_num)⟩

/-! ### Membership in the search pipeline -/

theorem mem_searchScored {semScore : Cell → ℚ} {query : String} {cells : List Cell}
    {maxResults : Int} {sc : ScoredCell}
    (h : sc ∈ searchScored semScore query cells maxResults) :
    relFloor sc = true ∧ ∃ c ∈ cells, sc = scoreCell semScore query c := by
  unfold searchScored pySlice at h
  have h2 : sc ∈ List.insertionSort scoreGE
      ((cells.map (scoreCell semScore query)).filter relFloor) := by
    split at h <;> exact List.take_subset _ _ h
  rw [List.mem_insertionSort, List.mem_filter] at h2
  obtain ⟨h3, h4⟩ := h2
  rw [List.mem_map] at h3
  obtain ⟨c, hc, rfl⟩ := h3
  exact ⟨h4, c, hc, rfl⟩

theorem mkRat_one_tenth : (mkRat 1 10 : ℚ) = 1 / 10 := by
  rw [Rat.mkRat_eq_div]
  norm_num

theorem mkRat_four_tenths : (mkRat 4 10 : ℚ) = 4 / 10 := by
  rw [Rat.mkRat_eq_div]
  norm_num

theorem mkRat_two_tenths : (mkRat 2 10 : ℚ) = 2 / 10 := by
  rw [Rat.mkRat_eq_div]
  norm_num

/-- Final score of any scored cell, in standard arithmetic. -/
theorem scoreCell_finalScore (semScore : Cell → ℚ) (query : String) (c : Cell) :
    (scoreCell semScore query c).finalScore =
      (4/10) * (scoreCell semScore query c).semanticScore +
      (4/10) * (scoreCell semScore query c).conceptScore +
      (2/10) * (scoreCell semScore query c).contextScore := by
  simp only [scoreCell]
  rw [qAdd_eq, qAdd_eq, qMul_eq, qMul_eq, qMul_eq, mkRat_four_tenths, mkRat_two_tenths]
  ring

/-! ### C1: the weight invariant -/

/-- C1: every cell scored during search has
`finalScore = 0.4 * semanticScore + 0.4 * conceptScore + 0.2 * contextScore`,
exactly (the model computes with exact rationals, so exact equality implies
the 1e-9 tolerance of the claim). -/
theorem c1_weightInvariant (semScore : Cell → ℚ) (query : String) (cells : List Cell)
    (maxResults : Int) (sc : ScoredCell)
    (h : sc ∈ searchScored semScore query cells maxResults) :
    sc.finalScore =
      (4/10) * sc.semanticScore + (4/10) * sc.conceptScore + (2/10) * sc.contextScore := by
  obtain ⟨-, c, -, rfl⟩ := mem_searchScored h
  exact scoreCell_finalScore semScore query c

def c1Cell : Cell :=
  { sheet := "s", row := 0, col := 0, value := Scalar.text "x", formula := "",
    headerContext := "", concepts := ["zzz"] }

def c1Sc : ScoredCell := scoreCell (fun _ => mkRat 1 2) "zzz" c1Cell

theorem c1_weightInvariant_witness :
    c1Sc ∈ searchScored (fun _ => mkRat 1 2) "zzz" [c1Cell] 10 ∧
    c1Sc.finalScore =
      (4/10) * c1Sc.semanticScore + (4/10) * c1Sc.conceptScore + (2/10) * c1Sc.contextScore :=
  ⟨by decide, c1_weightInvariant (fun _ => mkRat 1 2) "zzz" [c1Cell] 10 c1Sc (by decide)⟩

/-! ### C4: the relevance floor -/

/-- C4: no scored result whose final score is at most 0.10 is ever contained
in the returned list (the filter keeps exactly the cells with
`final_score > 0.1`). -/
theorem c4_relevanceFloor (semScore : Cell → ℚ) (query : String) (cells : List Cell)
    (maxResults : Int) (sc : ScoredCell)
    (h : sc ∈ searchScored semScore query cells maxResults) :
    ¬ sc.finalScore ≤ 1/10 := by
  obtain ⟨hf, -⟩ := mem_searchScored h
  rw [relFloor, decide_eq_true_iff, mkRat_one_tenth] at hf
  exact not_le.mpr hf

def c4Cell : Cell :=
  { sheet := "s", row := 3, col := 2, value := Scalar.text "y", formula := "",
    headerContext := "", concepts := ["zzz"] }

def c4Sc : ScoredCell := scoreCell (fun _ => mkRat 1 2) "zzz" c4Cell

theorem c4_relevanceFloor_witness :
    c4Sc ∈ searchScored (fun _ => mkRat 1 2) "zzz" [c4Cell] 10 ∧ ¬ c4Sc.finalScore ≤ 1/10 :=
  ⟨by decide, c4_relevanceFloor (fun _ => mkRat 1 2) "zzz" [c4Cell] 10 c4Sc (by decide)⟩

/-! ### C2: the concept score -/

/-- Concept score as claim C2 words it, the 0.7 rule reading "some single
word of a tag appears as a whole word in the query" (membership among the
split words of the query). -/
def specConceptScoreClaim (query : String) (tags : List String) : ℚ :=
  if tags.isEmpty then 0 else
  let ql := lowerStr query
  qMax (qMax (if tags.any (fun t => containsStr ql (lowerStr t)) then 1 else 0)
             (if tags.any (fun t => (splitWs (lowerStr t)).any (fun w => (splitWs ql).contains w))
              then mkRat 7 10 else 0))
       (if tags.any (fun t => (identifyConcepts ql).contains t) then mkRat 4 5 else 0)

/-- Concept score as the amended claim words it: identical to
`specConceptScoreClaim` except that the 0.7 rule fires when some single word
of a tag occurs as a **substring** of the lower-cased query, which is the
Python membership `word in query_lower` the source uses. -/
def specConceptScoreAmended (query : String) (tags : List String) : ℚ :=
  if tags.isEmpty then 0 else
  let ql := lowerStr query
  qMax (qMax (if tags.any (fun t => containsStr ql (lowerStr t)) then 1 else 0)
             (if tags.any (fun t => (splitWs (lowerStr t)).any (fun w => containsStr ql w))
              then mkRat 7 10 else 0))
       (if tags.any (fun t => (identifyConcepts ql).contains t) then mkRat 4 5 else 0)

theorem sevenTenths_eq : (mkRat 7 10 : ℚ) = 7/10 := by
  rw [Rat.mkRat_eq_div]
  norm_num

theorem fourFifths_eq : (mkRat 4 5 : ℚ) = 4/5 := by
  rw [Rat.mkRat_eq_div]
  norm_num

theorem sevenTenths_nonneg : (0:ℚ) ≤ mkRat 7 10 := by
  rw [sevenTenths_eq]
  norm_num

theorem sevenTenths_le_one : (mkRat 7 10 : ℚ) ≤ 1 := by
  rw [sevenTenths_eq]
  norm_num

theorem fourFifths_nonneg : (0:ℚ) ≤ mkRat 4 5 := by
  rw [fourFifths_eq]
  norm_num

theorem iteOne_nonneg (c : Prop) [Decidable c] : (0:ℚ) ≤ if c then 1 else 0 := by
  split_ifs <;> norm_num

theorem iteOne_le_one (c : Prop) [Decidable c] : (if c then (1:ℚ) else 0) ≤ 1 := by
  split_ifs <;> norm_num

theorem iteSeven_nonneg (c : Prop) [Decidable c] : (0:ℚ) ≤ if c then mkRat 7 10 else 0 := by
  split_ifs with h
  · exact sevenTenths_nonneg
  · norm_num

theorem iteSeven_le_one (c : Prop) [Decidable c] : (if c then (mkRat 7 10 : ℚ) else 0) ≤ 1 := by
  split_ifs with h
  · exact sevenTenths_le_one
  · norm_num

theorem qMax_assoc (a b c : ℚ) : qMax (qMax a b) c = qMax a (qMax b c) := by
  simp [qMax_eq, max_assoc]

theorem foldl_qMax (l : List ℚ) : ∀ a b : ℚ, l.foldl qMax (qMax a b) = max a (l.foldl qMax b) := by
  induction l with
  | nil => intro a b; exact qMax_eq a b
  | cons c cs ih =>
    intro a b
    show cs.foldl qMax (qMax (qMax a b) c) = max a (cs.foldl qMax (qMax b c))
    rw [qMax_assoc]
    exact ih a (qMax b c)

theorem maxQ_cons (a : ℚ) (l : List ℚ) (ha : 0 ≤ a) : maxQ (a :: l) = max a (maxQ l) := by
  cases l with
  | nil => exact (max_eq_left ha).symm
  | cons b bs => exact foldl_qMax bs a b

theorem maxQ_append_single (l : List ℚ) (x : ℚ) (hx : 0 ≤ x) (hl : ∀ y ∈ l, 0 ≤ y) :
    maxQ (l ++ [x]) = max (maxQ l) x := by
  induction l with
  | nil =>
    show maxQ [x] = max (maxQ []) x
    exact (max_eq_right hx).symm
  | cons a as ih =>
    have ha : 0 ≤ a := hl a (List.mem_cons_self a as)
    have ih2 := ih (fun y hy => hl y (List.mem_cons_of_mem a hy))
    rw [List.cons_append, maxQ_cons a _ ha, ih2, ← max_assoc, ← maxQ_cons a as ha]

theorem conceptDirectScores_nonneg (ql : String) (tags : List String) :
    ∀ y ∈ conceptDirectScores ql tags, 0 ≤ y := by
  induction tags with
  | nil => simp [conceptDirectScores]
  | cons t ts ih =>
    intro y hy
    simp only [conceptDirectScores, List.foldr_cons] at hy ih
    by_cases h1 : containsStr ql (lowerStr t) = true
    · rw [if_pos h1] at hy
      rcases List.mem_cons.mp hy with rfl | hy2
      · norm_num
      · exact ih y hy2
    · rw [if_neg h1] at hy
      by_cases h2 : ((splitWs (lowerStr t)).any fun w => containsStr ql w) = true
      · rw [if_pos h2] at hy
        rcases List.mem_cons.mp hy with rfl | hy2
        · exact sevenTenths_nonneg
        · exact ih y hy2
      · rw [if_neg h2] at hy
        exact ih y hy

theorem maxQ_conceptDirectScores (ql : String) (tags : List String) :
    maxQ (conceptDirectScores ql tags) =
      max (if tags.any (fun t => containsStr ql (lowerStr t)) then 1 else 0)
          (if tags.any (fun t => (splitWs (lowerStr t)).any (fun w => containsStr ql w)) then
            mkRat 7 10 else 0) := by
  induction tags with
  | nil => simp [conceptDirectScores, maxQ]
  | cons t ts ih =>
    simp only [conceptDirectScores, List.foldr_cons, List.any_cons] at *
    by_cases h1 : containsStr ql (lowerStr t) = true
    · rw [if_pos h1, maxQ_cons 1 _ (by norm_num), ih]
      simp only [h1, Bool.true_or, eq_self_iff_true, if_true]
      rw [max_eq_left (max_le (iteOne_le_one _) (iteSeven_le_one _))]
      exact (max_eq_left (iteSeven_le_one _)).symm
    · have h1f : containsStr ql (lowerStr t) = false := by
        rw [← Bool.not_eq_true]
        exact h1
      rw [if_neg h1]
      by_cases h2 : ((splitWs (lowerStr t)).any fun w => containsStr ql w) = true
      · rw [if_pos h2, maxQ_cons _ _ sevenTenths_nonneg, ih]
        simp only [h1f, Bool.false_or, h2, Bool.true_or, eq_self_iff_true, if_true]
        by_cases hA : (ts.any fun t => containsStr ql (lowerStr t)) = true
        · simp only [hA, eq_self_iff_true, if_true]
          rw [max_eq_left (iteSeven_le_one _), max_eq_right sevenTenths_le_one,
            max_eq_left sevenTenths_le_one]
        · have hAf : (ts.any fun t => containsStr ql (lowerStr t)) = false := by
            rw [← Bool.not_eq_true]
            exact hA
          simp only [hAf, Bool.false_eq_true, if_false]
          rw [max_eq_right (iteSeven_nonneg _), max_eq_right sevenTenths_nonneg]
          by_cases hB : (ts.any fun t => (splitWs (lowerStr t)).any fun w => containsStr ql w) = true
          · simp only [hB, eq_self_iff_true, if_true, max_self]
          · have hBf : (ts.any fun t => (splitWs (lowerStr t)).any fun w => containsStr ql w)
                = false := by
              rw [← Bool.not_eq_true]
              exact hB
            simp only [hBf, Bool.false_eq_true, if_false]
            exact max_eq_left sevenTenths_nonneg
      · have h2f : ((splitWs (lowerStr t)).any fun w => containsStr ql w) = false := by
          rw [← Bool.not_eq_true]
          exact h2
        rw [if_neg h2, ih]
        simp only [h1f, h2f, Bool.false_or]

/-- Equality of the source concept score with the amended specification;
shared by the C2 and C9 theorems. -/
theorem conceptRelevance_eq_spec (query : String) (tags : List String) :
    conceptRelevance query tags = specConceptScoreAmended query tags := by
  by_cases he : tags.isEmpty
  · unfold conceptRelevance specConceptScoreAmended
    rw [if_pos he, if_pos he]
  · unfold conceptRelevance specConceptScoreAmended
    rw [if_neg he, if_neg he]
    simp only []
    by_cases hC : (tags.any fun t => (identifyConcepts (lowerStr query)).contains t) = true
    · rw [if_pos hC, if_pos hC,
        maxQ_append_single _ _ fourFifths_nonneg (conceptDirectScores_nonneg _ _),
        maxQ_conceptDirectScores, qMax_eq, qMax_eq]
    · rw [if_neg hC, if_neg hC, maxQ_conceptDirectScores, qMax_eq, qMax_eq]
      exact (max_eq_left (le_trans (iteOne_nonneg _) (le_max_left _ _))).symm

/-- C2 counterexample: for the query "costs" and a cell whose only tag is
"cost calculation", the source computes 0.7 — the tag word "cost" occurs in
"costs" only as a substring, not as a whole word — while the claim as
stated yields 0, because none of its rules fires. -/
theorem c2_counterexample :
    conceptRelevance "costs" ["cost calculation"] = mkRat 7 10 ∧
    specConceptScoreClaim "costs" ["cost calculation"] = 0 ∧
    conceptRelevance "costs" ["cost calculation"] ≠
      specConceptScoreClaim "costs" ["cost calculation"] :=
  ⟨by decide, by decide, by decide⟩

/-- C2 amended: for every query string and every cell tag list, the concept
score is 0 if the cell has no tags, and otherwise the maximum over: 1.0 if
some cell tag appears verbatim as a substring of the lower-cased query; 0.7
if some single word of a tag appears as a substring of the lower-cased
query; 0.8 if the tags the Tagger derives from the query intersect the cell
tag set; and 0.0 if no rule fires. -/
theorem c2_conceptScore (query : String) (tags : List String) :
    conceptRelevance query tags = specConceptScoreAmended query tags :=
  conceptRelevance_eq_spec query tags

/-! ### C3: tagger matching -/

theorem allConcepts_names_nodup : ((allConcepts.map (fun c => c.name)).Nodup) := by decide

theorem mem_identifyConcepts (text : String) (name : String) :
    name ∈ identifyConcepts text ↔
      ((∃ c ∈ allConcepts, c.name = name ∧ matchesConcept (lowerStr text) c = true) ∨
       name ∈ identifyPatterns (lowerStr text) ∨ name ∈ identifyFormulaConcepts text) := by
  unfold identifyConcepts
  simp only []
  rw [mem_dedupStr, List.mem_append, List.mem_append, or_assoc]
  constructor
  · rintro (hd | hrest)
    · left
      rw [List.mem_map] at hd
      obtain ⟨c, hc, rfl⟩ := hd
      rw [List.mem_filter] at hc
      exact ⟨c, hc.1, rfl, hc.2⟩
    · exact Or.inr hrest
  · rintro (⟨c, hc, rfl, hm⟩ | hrest)
    · left
      rw [List.mem_map]
      exact ⟨c, List.mem_filter.mpr ⟨hc, hm⟩, rfl⟩
    · exact Or.inr hrest

def c3Concept : BusinessConcept :=
  { name := "sum calculation"
  , synonyms := ["total", "sum formula", "addition"]
  , keywords := ["sum", "total", "add", "addition"]
  , description := "Sum or total calculations"
  , category := "formulas" }

/-- C3 counterexample: the Tagger tags the text "assumption" with the
catalog concept "sum calculation" — its term "sum" occurs in "assumption"
only as a substring — although no term of that concept has all of its words
among the words of the text, refuting the word-containment reading of the
claim. -/
theorem c3_counterexample :
    c3Concept ∈ allConcepts ∧
    c3Concept.name ∈ identifyConcepts "assumption" ∧
    ¬ ∃ term ∈ [c3Concept.name] ++ c3Concept.synonyms ++ c3Concept.keywords,
        ∀ w ∈ splitWs (lowerStr term), w ∈ splitWs (lowerStr "assumption") :=
  ⟨by decide, by decide, by decide⟩

/-- C3 amended: for every text and catalog concept, the direct-matching step
fires iff some term among the concept name, synonyms and keywords has all
of its words occur as **substrings** of the lower-cased text; the full
Tagger output is the union of these direct matches with the pattern-based
and formula-based tags (which can also contribute catalog names). -/
theorem c3_taggerMatching (text : String) (c : BusinessConcept) (h : c ∈ allConcepts) :
    (matchesConcept (lowerStr text) c = true ↔
      ∃ term ∈ [c.name] ++ c.synonyms ++ c.keywords,
        ∀ w ∈ splitWs (lowerStr term),
          ∃ l r, (lowerStr text).data = l ++ (w.data ++ r)) ∧
    (c.name ∈ identifyConcepts text ↔
      (matchesConcept (lowerStr text) c = true ∨
       c.name ∈ identifyPatterns (lowerStr text) ∨
       c.name ∈ identifyFormulaConcepts text)) := by
  constructor
  · unfold matchesConcept
    rw [List.any_eq_true]
    constructor
    · rintro ⟨term, hterm, hall⟩
      refine ⟨term, hterm, ?_⟩
      intro w hw
      rw [List.all_eq_true] at hall
      have hww := hall w hw
      rw [containsStr_iff] at hww
      exact hww
    · rintro ⟨term, hterm, hall⟩
      refine ⟨term, hterm, ?_⟩
      rw [List.all_eq_true]
      intro w hw
      rw [containsStr_iff]
      exact hall w hw
  · rw [mem_identifyConcepts]
    constructor
    · rintro (⟨c2, hc2, hname, hmatch⟩ | hrest)
      · left
        have hcc : c2 = c := List.inj_on_of_nodup_map allConcepts_names_nodup hc2 h hname
        exact hcc ▸ hmatch
      · exact Or.inr hrest
    · rintro (hmatch | hrest)
      · exact Or.inl ⟨c, h, rfl, hmatch⟩
      · exact Or.inr hrest

theorem c3_taggerMatching_witness :
    c3Concept ∈ allConcepts ∧
    ((matchesConcept (lowerStr "assumption") c3Concept = true ↔
      ∃ term ∈ [c3Concept.name] ++ c3Concept.synonyms ++ c3Concept.keywords,
        ∀ w ∈ splitWs (lowerStr term),
          ∃ l r, (lowerStr "assumption").data = l ++ (w.data ++ r)) ∧
     (c3Concept.name ∈ identifyConcepts "assumption" ↔
      (matchesConcept (lowerStr "assumption") c3Concept = true ∨
       c3Concept.name ∈ identifyPatterns (lowerStr "assumption") ∨
       c3Concept.name ∈ identifyFormulaConcepts "assumption"))) :=
  ⟨by decide, c3_taggerMatching "assumption" c3Concept (by decide)⟩

/-! ### C5: ordering, stability and truncation -/

theorem orderedInsert_filter_score (a : ScoredCell) (l : List ScoredCell) (s : ℚ) :
    (List.orderedInsert scoreGE a l).filter (fun x => decide (x.finalScore = s)) =
      (if a.finalScore = s then [a] else []) ++
        l.filter (fun x => decide (x.finalScore = s)) := by
  induction l with
  | nil =>
    by_cases h : a.finalScore = s <;>
      simp [List.orderedInsert, List.filter_cons, h]
  | cons b t ih =>
    by_cases hab : scoreGE a b
    · rw [List.orderedInsert_of_le _ _ hab]
      by_cases ha : a.finalScore = s <;> by_cases hb : b.finalScore = s <;>
        simp [List.filter_cons, ha, hb]
    · have hins : List.orderedInsert scoreGE a (b :: t) =
          b :: List.orderedInsert scoreGE a t := by
        simp [List.orderedInsert, hab]
      rw [hins]
      have hlt : a.finalScore < b.finalScore := not_le.mp hab
      by_cases ha : a.finalScore = s
      · have hb : ¬ b.finalScore = s := by
          rw [← ha]
          exact ne_of_gt hlt
        simp [List.filter_cons, ha, hb, ih]
      · simp [List.filter_cons, ha, ih]

theorem insertionSort_filter_score (l : List ScoredCell) (s : ℚ) :
    (List.insertionSort scoreGE l).filter (fun x => decide (x.finalScore = s)) =
      l.filter (fun x => decide (x.finalScore = s)) := by
  induction l with
  | nil => rfl
  | cons a t ih =>
    show (List.orderedInsert scoreGE a (List.insertionSort scoreGE t)).filter _ = _
    rw [orderedInsert_filter_score, ih]
    by_cases h : a.finalScore = s <;> simp [List.filter_cons, h]

def c5Cell : Cell :=
  { sheet := "s", row := 0, col := 0, value := Scalar.text "x", formula := "",
    headerContext := "", concepts := ["zzz"] }

def c5CellB : Cell :=
  { sheet := "s", row := 1, col := 0, value := Scalar.text "x", formula := "",
    headerContext := "", concepts := ["zzz"] }

/-- C5 counterexample: for `maxResults = -1`, the Python slice
`results[:-1]` drops only the last entry, so the search over two passing
cells returns one entry — and a list with any number of entries is not "at
most -1 entries", refuting the claim for every maxResults value. -/
theorem c5_counterexample :
    (searchScored (fun _ => mkRat 1 2) "zzz" [c5Cell, c5CellB] (-1)).length = 1 ∧
    ¬ (((searchScored (fun _ => mkRat 1 2) "zzz" [c5Cell, c5CellB] (-1)).length : Int) ≤ -1) :=
  ⟨by decide, by decide⟩

/-- C5 amended: for every nonnegative maxResults, the final score is
non-increasing across successive returned entries, the returned list is the
`maxResults`-prefix of the stable descending sort whose equal-score entries
keep the emission order of the filtered scored list, and at most
`maxResults` entries are returned.  (For negative maxResults the Python
slice instead drops that many entries from the end.) -/
theorem c5_ordering (semScore : Cell → ℚ) (query : String) (cells : List Cell)
    (maxResults : Int) (hn : 0 ≤ maxResults) (s : ℚ) :
    List.Pairwise (fun a b => b.finalScore ≤ a.finalScore)
        (searchScored semScore query cells maxResults) ∧
    searchScored semScore query cells maxResults =
      (List.insertionSort scoreGE
        ((cells.map (scoreCell semScore query)).filter relFloor)).take maxResults.toNat ∧
    (List.insertionSort scoreGE
        ((cells.map (scoreCell semScore query)).filter relFloor)).filter
        (fun x => decide (x.finalScore = s)) =
      ((cells.map (scoreCell semScore query)).filter relFloor).filter
        (fun x => decide (x.finalScore = s)) ∧
    ((searchScored semScore query cells maxResults).length : Int) ≤ maxResults := by
  have htake : searchScored semScore query cells maxResults =
      (List.insertionSort scoreGE
        ((cells.map (scoreCell semScore query)).filter relFloor)).take maxResults.toNat := by
    unfold searchScored pySlice
    rw [if_pos hn]
  refine ⟨?_, htake, insertionSort_filter_score _ s, ?_⟩
  · rw [htake]
    exact List.Pairwise.sublist (List.take_sublist _ _) (List.sorted_insertionSort scoreGE _)
  · rw [htake]
    have h1 : ((List.insertionSort scoreGE
        ((cells.map (scoreCell semScore query)).filter relFloor)).take
          maxResults.toNat).length ≤ maxResults.toNat := by
      rw [List.length_take]
      exact min_le_left _ _
    have h2 := Int.toNat_of_nonneg hn
    omega

theorem c5_ordering_witness :
    (0:Int) ≤ 2 ∧
    (List.Pairwise (fun a b => b.finalScore ≤ a.finalScore)
        (searchScored (fun _ => mkRat 1 2) "zzz" [c5Cell, c5CellB] 2) ∧
     searchScored (fun _ => mkRat 1 2) "zzz" [c5Cell, c5CellB] 2 =
       (List.insertionSort scoreGE
         (([c5Cell, c5CellB].map (scoreCell (fun _ => mkRat 1 2) "zzz")).filter relFloor)).take
         (2:Int).toNat ∧
     (List.insertionSort scoreGE
         (([c5Cell, c5CellB].map (scoreCell (fun _ => mkRat 1 2) "zzz")).filter relFloor)).filter
         (fun x => decide (x.finalScore = mkRat 3 5)) =
       (([c5Cell, c5CellB].map (scoreCell (fun _ => mkRat 1 2) "zzz")).filter relFloor).filter
         (fun x => decide (x.finalScore = mkRat 3 5)) ∧
     ((searchScored (fun _ => mkRat 1 2) "zzz" [c5Cell, c5CellB] 2).length : Int) ≤ 2) :=
  ⟨by decide,
    c5_ordering (fun _ => mkRat 1 2) "zzz" [c5Cell, c5CellB] 2 (by decide) (mkRat 3 5)⟩

/-! ### C8: the tagging context string -/

/-- The context string as claim C8 words it (spec 4.2): header context,
stringified value — for numeric values as well as strings — formula, and
sheet name (empty components skipped, lower-cased as the source does). -/
def specContextTextClaim (value : Scalar) (formula header sheet : String) : String :=
  lowerStr (joinSp ((if header ≠ "" then [header] else []) ++ [scalarStr value] ++
    (if formula ≠ "" then [formula] else []) ++ [sheet]))

/-- The context string as the amended claim words it: the raw value is
included only when it is a string; numeric values are omitted. -/
def specContextTextAmended (value : Scalar) (formula header sheet : String) : String :=
  lowerStr (joinSp ((if header ≠ "" then [header] else []) ++
    (match value with | Scalar.text s => [s] | _ => []) ++
    (if formula ≠ "" then [formula] else []) ++ [sheet]))

/-- C8 counterexample: for a numeric cell value 5000 under header
"Total Revenue" in sheet "Sheet1", the source builds the context string
"total revenue sheet1", while the claim requires the stringified value to be
included, giving "total revenue 5000 sheet1". -/
theorem c8_counterexample :
    cellContextText (Scalar.num 5000) "" "Total Revenue" "Sheet1" = "total revenue sheet1" ∧
    specContextTextClaim (Scalar.num 5000) "" "Total Revenue" "Sheet1" =
      "total revenue 5000 sheet1" ∧
    cellContextText (Scalar.num 5000) "" "Total Revenue" "Sheet1" ≠
      specContextTextClaim (Scalar.num 5000) "" "Total Revenue" "Sheet1" :=
  ⟨by decide, by decide, by decide⟩

/-- C8 amended: for every indexed cell, the formula field is the `=`-prefix
test of the raw value, the tagging context string is the join of the header
context, the raw value only when it is a string, the formula and the sheet
name (lower-cased), and the tag list is the Tagger output on that string
united with the formula- and value-based enrichments, deduplicated. -/
theorem c8_contextString (sheets : List (String × List (List Scalar))) (c : Cell)
    (h : c ∈ indexCells sheets) :
    c.formula = formulaOf c.value ∧
    cellContextText c.value c.formula c.headerContext c.sheet =
      specContextTextAmended c.value c.formula c.headerContext c.sheet ∧
    c.concepts = identifyCellConcepts c.value c.formula c.headerContext c.sheet := by
  have heq : ∀ v f hd sh, cellContextText v f hd sh = specContextTextAmended v f hd sh := by
    intro v f hd sh
    cases v <;> rfl
  unfold indexCells at h
  rw [List.mem_flatten] at h
  obtain ⟨lc, hlc, hcin⟩ := h
  rw [List.mem_map] at hlc
  obtain ⟨⟨sheetName, data⟩, hmem, rfl⟩ := hlc
  cases data with
  | nil => simp [processSheet] at hcin
  | cons row0 rest =>
    rw [processSheet, List.mem_flatten] at hcin
    obtain ⟨cl, hcl, hc2⟩ := hcin
    rw [List.mem_map] at hcl
    obtain ⟨rowPair, hrp, rfl⟩ := hcl
    rw [List.mem_filterMap] at hc2
    obtain ⟨colPair, hcp, hbuild⟩ := hc2
    by_cases hblank : isBlank colPair.2 = true
    · rw [if_pos hblank] at hbuild
      exact absurd hbuild (by simp)
    · rw [if_neg hblank] at hbuild
      have hc : c = buildCell sheetName row0 rowPair.1 colPair.1 colPair.2 :=
        (Option.some_injective _ hbuild).symm
      subst hc
      refine ⟨?_, heq _ _ _ _, ?_⟩
      · simp only [buildCell]
      · simp only [buildCell]

def c8Sheets : List (String × List (List Scalar)) := [("Data", [[Scalar.text "Revenue"]])]

def c8Cell : Cell := buildCell "Data" [Scalar.text "Revenue"] 0 0 (Scalar.text "Revenue")

theorem c8_contextString_witness :
    c8Cell ∈ indexCells c8Sheets ∧
    (c8Cell.formula = formulaOf c8Cell.value ∧
     cellContextText c8Cell.value c8Cell.formula c8Cell.headerContext c8Cell.sheet =
       specContextTextAmended c8Cell.value c8Cell.formula c8Cell.headerContext c8Cell.sheet ∧
     c8Cell.concepts =
       identifyCellConcepts c8Cell.value c8Cell.formula c8Cell.headerContext c8Cell.sheet) :=
  ⟨by decide, c8_contextString c8Sheets c8Cell (by decide)⟩

/-! ### C9: score ranges -/

theorem fourFifths_le_one : (mkRat 4 5 : ℚ) ≤ 1 := by
  rw [fourFifths_eq]
  norm_num

theorem iteFour_le_one (c : Prop) [Decidable c] : (if c then (mkRat 4 5 : ℚ) else 0) ≤ 1 := by
  split_ifs with h
  · exact fourFifths_le_one
  · norm_num

theorem conceptRelevance_nonneg (query : String) (tags : List String) :
    0 ≤ conceptRelevance query tags := by
  rw [conceptRelevance_eq_spec]
  unfold specConceptScoreAmended
  split_ifs with h
  · exact le_refl 0
  · simp only []
    rw [qMax_eq, qMax_eq]
    exact le_trans (iteOne_nonneg _) (le_trans (le_max_left _ _) (le_max_left _ _))

theorem conceptRelevance_le_one (query : String) (tags : List String) :
    conceptRelevance query tags ≤ 1 := by
  rw [conceptRelevance_eq_spec]
  unfold specConceptScoreAmended
  split_ifs with h
  · norm_num
  · simp only []
    rw [qMax_eq, qMax_eq]
    exact max_le (max_le (iteOne_le_one _) (iteSeven_le_one _)) (iteFour_le_one _)

theorem contextualRelevance_nonneg (query : String) (c : Cell) :
    0 ≤ contextualRelevance query c := by
  unfold contextualRelevance
  simp only []
  rw [qMin_eq]
  refine le_min ?_ (by norm_num)
  rw [qAdd_eq]
  refine add_nonneg ?_ ?_
  · split_ifs with h1 h2
    · rw [qMul_eq, Rat.mkRat_eq_div, Rat.mkRat_eq_div]
      positivity
    · exact le_refl 0
    · exact le_refl 0
  · split_ifs with h1
    · rw [qMul_eq, Rat.mkRat_eq_div, Rat.mkRat_eq_div]
      positivity
    · exact le_refl 0

theorem contextualRelevance_le_one (query : String) (c : Cell) :
    contextualRelevance query c ≤ 1 := by
  unfold contextualRelevance
  simp only []
  rw [qMin_eq]
  exact min_le_right _ _

def c9Cell : Cell := buildCell "Revenue" [Scalar.text "Revenue"] 0 0 (Scalar.text "Revenue")

def c9Sc : ScoredCell := scoreCell (fun _ => mkRat (-1) 2) "revenue" c9Cell

/-- C9 counterexample: with the cosine oracle returning -1/2 (a legitimate
cosine value in [-1,1]), the indexed "Revenue" cell still passes the
relevance floor (final score 0.4·(-0.5) + 0.4·0.8 + 0.2·0.5 = 0.22 > 0.1),
and the semanticScore of the produced scored result is negative, hence not
in [0,1] as the claim states. -/
theorem c9_counterexample :
    ((-1 : ℚ) ≤ mkRat (-1) 2 ∧ (mkRat (-1) 2 : ℚ) ≤ 1) ∧
    c9Sc ∈ searchScored (fun _ => mkRat (-1) 2) "revenue"
      (indexCells [("Revenue", [[Scalar.text "Revenue"]])]) 10 ∧
    c9Sc.semanticScore < 0 :=
  ⟨⟨by decide, by decide⟩, by decide, by decide⟩

/-- C9 amended: assuming the cosine oracle stays in [-1,1], every scored
result of a search has conceptScore and contextScore in [0,1], finalScore in
(0.1, 1], and semanticScore in [-1,1] — the semantic score is the raw,
unclipped cosine and may be negative. -/
theorem c9_scoreBounds (semScore : Cell → ℚ) (query : String) (cells : List Cell)
    (maxResults : Int) (hsem : ∀ c : Cell, -1 ≤ semScore c ∧ semScore c ≤ 1)
    (sc : ScoredCell) (h : sc ∈ searchScored semScore query cells maxResults) :
    (-1 ≤ sc.semanticScore ∧ sc.semanticScore ≤ 1) ∧
    (0 ≤ sc.conceptScore ∧ sc.conceptScore ≤ 1) ∧
    (0 ≤ sc.contextScore ∧ sc.contextScore ≤ 1) ∧
    (1/10 < sc.finalScore ∧ sc.finalScore ≤ 1) := by
  obtain ⟨hf, c, hc, rfl⟩ := mem_searchScored h
  rw [relFloor, decide_eq_true_iff, mkRat_one_tenth] at hf
  have e1 : (scoreCell semScore query c).semanticScore = semScore c := rfl
  have e2 : (scoreCell semScore query c).conceptScore = conceptRelevance query c.concepts := rfl
  have e3 : (scoreCell semScore query c).contextScore = contextualRelevance query c := rfl
  refine ⟨⟨?_, ?_⟩, ⟨?_, ?_⟩, ⟨?_, ?_⟩, ⟨hf, ?_⟩⟩
  · rw [e1]
    exact (hsem c).1
  · rw [e1]
    exact (hsem c).2
  · rw [e2]
    exact conceptRelevance_nonneg query c.concepts
  · rw [e2]
    exact conceptRelevance_le_one query c.concepts
  · rw [e3]
    exact contextualRelevance_nonneg query c
  · rw [e3]
    exact contextualRelevance_le_one query c
  · rw [scoreCell_finalScore, e1, e2, e3]
    have h1 := (hsem c).2
    have h2 := conceptRelevance_le_one query c.concepts
    have h3 := contextualRelevance_le_one query c
    linarith

def c9WSc : ScoredCell := scoreCell (fun _ => mkRat 1 2) "revenue" c9Cell

theorem c9_scoreBounds_witness :
    c9WSc ∈ searchScored (fun _ => mkRat 1 2) "revenue"
      (indexCells [("Revenue", [[Scalar.text "Revenue"]])]) 10 ∧
    ((-1 ≤ c9WSc.semanticScore ∧ c9WSc.semanticScore ≤ 1) ∧
     (0 ≤ c9WSc.conceptScore ∧ c9WSc.conceptScore ≤ 1) ∧
     (0 ≤ c9WSc.contextScore ∧ c9WSc.contextScore ≤ 1) ∧
     (1/10 < c9WSc.finalScore ∧ c9WSc.finalScore ≤ 1)) :=
  ⟨by decide,
    c9_scoreBounds (fun _ => mkRat 1 2) "revenue"
      (indexCells [("Revenue", [[Scalar.text "Revenue"]])]) 10
      (fun _ => ⟨(by decide : (-1 : ℚ) ≤ mkRat 1 2), (by decide : (mkRat 1 2 : ℚ) ≤ 1)⟩)
      c9WSc (by decide)⟩

/-! ### C10: zero-valued cells -/

/-- C10: a cell whose raw value is the number 0 passes the blank-skip test —
only None and blank strings are skipped, so such a cell is indexed — and
the formatter emits the stringified value only when the raw value is truthy,
so every SearchResult produced for it has its value field equal to None
rather than the string "0". -/
theorem c10_zeroValue (semScore : Cell → ℚ) (query : String) (cells : List Cell)
    (maxResults : Int) (sc : ScoredCell)
    (hmem : sc ∈ searchScored semScore query cells maxResults)
    (hz : sc.cell.value = Scalar.num 0) :
    isBlank sc.cell.value = false ∧
    (formatResult query sc).value = none ∧
    formatResult query sc ∈ search semScore query cells maxResults := by
  refine ⟨?_, ?_, ?_⟩
  · rw [hz]
    rfl
  · show (if scalarTruthy sc.cell.value then some (scalarStr sc.cell.value) else none) = none
    rw [hz]
    rfl
  · exact List.mem_map_of_mem _ hmem

def c10Cell : Cell :=
  { sheet := "Revenue", row := 1, col := 0, value := Scalar.num 0, formula := "",
    headerContext := "Revenue", concepts := ["total revenue"] }

def c10Sc : ScoredCell := scoreCell (fun _ => mkRat 1 2) "revenue" c10Cell

theorem c10_zeroValue_witness :
    c10Sc ∈ searchScored (fun _ => mkRat 1 2) "revenue" [c10Cell] 10 ∧
    c10Sc.cell.value = Scalar.num 0 ∧
    (isBlank c10Sc.cell.value = false ∧
     (formatResult "revenue" c10Sc).value = none ∧
     formatResult "revenue" c10Sc ∈ search (fun _ => mkRat 1 2) "revenue" [c10Cell] 10) :=
  ⟨by decide, by decide,
    c10_zeroValue (fun _ => mkRat 1 2) "revenue" [c10Cell] 10 c10Sc (by decide) (by decide)⟩
